import Mathlib

/-!
Verification of the task selection and lifecycle engine of the `td` task
tracker (src/main.rs), via a shallow embedding of its data model and
operations.  Machine `usize` arithmetic is modelled as `Nat` with explicit
reduction mod `2 ^ 64` where the source can wrap; external library
behaviour (the chrono timestamp codec, the regex engine, the csv record
transport) is abstracted into explicit function parameters, faithful to
the way the source uses those libraries.
-/

namespace Td

/-- Model of chrono `DateTime<FixedOffset>`: an instant on the time line
together with a fixed UTC offset.  Equality of two values requires the
same instant and the same offset, matching the "same instant, same fixed
offset" reading of the persisted format. -/
structure DateTimeFO where
  instant : Int
  offset : Int
deriving DecidableEq, Repr

/-- Comparison of timestamps compares the underlying instants, as chrono
does when ordering two `DateTime` values. -/
def DateTimeFO.le (a b : DateTimeFO) : Prop := a.instant ≤ b.instant

instance (a b : DateTimeFO) : Decidable (DateTimeFO.le a b) :=
  inferInstanceAs (Decidable (a.instant ≤ b.instant))

/-- Model of `struct Task` from src/main.rs. -/
structure Task where
  text : String
  created : DateTimeFO
  completed : Option DateTimeFO
deriving DecidableEq, Repr

instance : Inhabited Task := ⟨⟨"", ⟨0, 0⟩, none⟩⟩

/-- Model of `Task::from_string`: the current wall-clock time is injected
as the `now` parameter (the source calls `Local::now()`). -/
def Task.fromString (string : String) (now : DateTimeFO) : Task :=
  { text := string, created := now, completed := none }

/-- Model of `struct Tasks`. -/
structure Tasks where
  tasks : List Task
deriving DecidableEq, Repr

/-- Model of `enum TaskError`. -/
inductive TaskError where
  | NotFound
deriving DecidableEq, Repr

/-- Model of `enum TaskFileError`.  The misspelling `ParseColmn` is the
source's own. -/
inductive TaskFileError where
  | NotFound
  | MissingColumn
  | ParseColmn
  | WriteColumn
deriving DecidableEq, Repr

/-- The four `TaskSelector` implementations as a sum type.  The pattern
variant carries the compiled regex abstractly, as its matching function
on strings. -/
inductive TaskSelector where
  | all : TaskSelector
  | pattern (isMatch : String → Bool) : TaskSelector
  | range (fromIdx toIdx : Nat) : TaskSelector
  | index (index : Nat) : TaskSelector

/-- Model of the four `TaskSelector::matches` implementations.  The
pattern variant looks the task up with `get` (so out-of-range positions
never match); index and range variants compare positions only. -/
def TaskSelector.matches (sel : TaskSelector) (ts : Tasks) (i : Nat) : Bool :=
  match sel with
  | .all => true
  | .pattern isMatch =>
      match ts.tasks.get? i with
      | some content => isMatch content.text
      | none => false
  | .range a b => decide (a ≤ i) && decide (i ≤ b)
  | .index idx => i == idx

/-- Model of `enum EmptyBehaviour`. -/
inductive EmptyBehaviour where
  | SelectLast
  | SelectAll
deriving DecidableEq, Repr

/-- Model of `enum DoneHandling`. -/
inductive DoneHandling where
  | Show
  | Hide
deriving DecidableEq, Repr

/-- The modulus of Rust `usize` arithmetic on a 64-bit target. -/
def USIZE_MOD : Nat := 2 ^ 64

/-- Model of the `index as usize - 1` subtraction in
`selector_from_string`: release-mode Rust wraps mod `2 ^ 64` (debug
builds would abort on overflow instead). -/
def usizeSub1 (n : Nat) : Nat := (n + (USIZE_MOD - 1)) % USIZE_MOD

/-- Model of Rust `str::parse::<u32>`: an optional leading plus sign,
then one or more decimal digits, rejecting values that overflow `u32`. -/
def parseU32 (s : String) : Option Nat :=
  let ds := match s.data with
    | '+' :: rest => rest
    | cs => cs
  if ds.isEmpty then none
  else if ds.all (fun c => c.isDigit) then
    let v := ds.foldl (fun a c => a * 10 + (c.toNat - 48)) 0
    if v < 2 ^ 32 then some v else none
  else none

/-- Helper for `splitOnce`: split a character list at the first
occurrence of `c`. -/
def splitOnceAux (c : Char) : List Char → Option (List Char × List Char)
  | [] => none
  | x :: xs =>
      if x = c then some ([], xs)
      else (splitOnceAux c xs).map (fun p => (x :: p.1, p.2))

/-- Model of Rust `str::split_once` with a one-character separator. -/
def splitOnce (s : String) (c : Char) : Option (String × String) :=
  (splitOnceAux c s.data).map (fun p => (String.mk p.1, String.mk p.2))

/-- Model of `selector_from_string`.  The regex engine is abstracted as
the `compileRegex` parameter (the source aborts on an invalid regex;
claims never depend on a particular pattern's matching function). -/
def selector_from_string (compileRegex : String → String → Bool)
    (string : String) (empty : EmptyBehaviour) : TaskSelector :=
  if string = "" then
    match empty with
    | .SelectLast => .index 0
    | .SelectAll => .all
  else
    match parseU32 string with
    | some index => .index (usizeSub1 index)
    | none =>
      match splitOnce string '-' with
      | some (a, b) =>
          match parseU32 a, parseU32 b with
          | some a, some b => .range (usizeSub1 a) (usizeSub1 b)
          | _, _ => .pattern (compileRegex string)
      | none => .pattern (compileRegex string)

/-- The loop body of `Tasks::select`: keep the enumerated position if it
passes the done-handling filter and the selector. -/
def selectStep (ts : Tasks) (selector : TaskSelector) (done : DoneHandling)
    (selected : List Nat) (pair : Nat × Task) : List Nat :=
  if (match done with
      | DoneHandling.Show => true
      | DoneHandling.Hide => pair.2.completed.isNone) then
    if selector.matches ts pair.1 then selected ++ [pair.1] else selected
  else selected

/-- Model of `Tasks::select`: iterate over the enumerated task list and
push each position that passes the done-handling filter and the
selector. -/
def Tasks.select (ts : Tasks) (selector : TaskSelector) (done : DoneHandling) :
    List Nat :=
  ts.tasks.enum.foldl (selectStep ts selector done) []

/-- Model of `Tasks::create`: insert at position 0. -/
def Tasks.create (ts : Tasks) (task : Task) : Tasks :=
  ⟨task :: ts.tasks⟩

/-- Model of `Tasks::work_on`.  The Rust method mutates `self` and
returns a `Result`; here it returns the new store paired with the
optional error, the store being unchanged in the error case. -/
def Tasks.work_on (ts : Tasks) (task : Nat) : Tasks × Option TaskError :=
  match ts.tasks.get? task with
  | some working => (⟨working :: ts.tasks.eraseIdx task⟩, none)
  | none => (ts, some TaskError.NotFound)

/-- Model of `Tasks::complete`: remove the task at `num`, set its
completion timestamp to the injected current time, and push it to the
end; out-of-range positions give `NotFound` and leave the store
unchanged. -/
def Tasks.complete (ts : Tasks) (num : Nat) (now : DateTimeFO) :
    Tasks × Option TaskError :=
  match ts.tasks.get? num with
  | some task =>
      (⟨ts.tasks.eraseIdx num ++ [{ task with completed := some now }]⟩, none)
  | none => (ts, some TaskError.NotFound)

/-- Split a character list at every occurrence of `c`, modelling Rust
`str::split` with a one-character separator. -/
def splitChar (c : Char) : List Char → List (List Char)
  | [] => [[]]
  | x :: xs =>
      if x = c then [] :: splitChar c xs
      else
        match splitChar c xs with
        | [] => [[x]]
        | y :: ys => (x :: y) :: ys

/-- Model of the create branch of `main`: split the joined argument text
on commas and create one task per segment, in order. -/
def createCmd (ts : Tasks) (argText : String) (now : DateTimeFO) : Tasks :=
  ((splitChar ',' argText.data).map String.mk).foldl
    (fun acc text => acc.create (Task.fromString text now)) ts

/-- One step of the done branch's completion loop: the accumulator is
the store, the panicked-on-unwrap flag, and the number of completions
applied so far (used to index the injected clock). -/
def doneStep (clock : Nat → DateTimeFO) (acc : Tasks × Bool × Nat) (p : Nat) :
    Tasks × Bool × Nat :=
  let r := acc.1.complete p (clock acc.2.2)
  (r.1, acc.2.1 || r.2.isSome, acc.2.2 + 1)

/-- Model of the done branch of `main`: resolve the selection snapshot
first, then complete each snapshot position in order, unwrapping each
result.  Successive `Local::now()` calls are injected as `clock`.  The
returned flag records whether any `unwrap` hit an error. -/
def doneCmd (ts : Tasks) (sel : TaskSelector) (clock : Nat → DateTimeFO) :
    Tasks × Bool :=
  let snapshot := ts.select sel DoneHandling.Hide
  let r := snapshot.foldl (doneStep clock) (ts, false, 0)
  (r.1, r.2.1)

/-- The csv record a task is saved as: text, formatted creation
timestamp, formatted completion timestamp or the empty string.  The
timestamp formatter (chrono format `%+`) is the `fmt` parameter. -/
def taskRecord (fmt : DateTimeFO → String) (task : Task) : List String :=
  [task.text, fmt task.created,
   match task.completed with
   | some time => fmt time
   | none => ""]

/-- Model of `Tasks::save` at the csv record level: the header record
followed by one record per task in store order. -/
def Tasks.save (ts : Tasks) (fmt : DateTimeFO → String) : List (List String) :=
  ["text", "created", "completed"] :: ts.tasks.map (taskRecord fmt)

/-- Model of csv::Reader's record stream: the first record of the file
is consumed as the header, the rest are yielded to the caller. -/
def csvRecords (rows : List (List String)) : List (List String) :=
  rows.drop 1

/-- Model of the loop of `Tasks::load`.  Each input element is `none`
for a row the csv reader failed to parse as a row at all (skipped
silently, the source's `if let Ok(record)`), or `some record`.  A record
with fewer than 3 columns fails the whole load with `MissingColumn`; a
creation column that does not parse fails with `ParseColmn`; a
completion column that does not parse becomes an absent completion.  The
timestamp parser (chrono `parse_from_str` with `%+`) is the `parse`
parameter. -/
def loadRows (parse : String → Option DateTimeFO) (tasks : List Task) :
    List (Option (List String)) → Except TaskFileError (List Task)
  | [] => Except.ok tasks
  | none :: rest => loadRows parse tasks rest
  | some record :: rest =>
      if record.length < 3 then Except.error TaskFileError.MissingColumn
      else
        match parse (record.getD 1 "") with
        | none => Except.error TaskFileError.ParseColmn
        | some created =>
            loadRows parse
              (tasks ++ [{ text := record.getD 0 "", created := created,
                           completed := parse (record.getD 2 "") }]) rest

/-- Number of active (not completed) tasks in the store. -/
def Tasks.activeCount (ts : Tasks) : Nat :=
  ts.tasks.countP (fun t => t.completed.isNone)

/-- Number of completed tasks in the store. -/
def Tasks.completedCount (ts : Tasks) : Nat :=
  ts.tasks.countP (fun t => t.completed.isSome)

/-- Store states reachable from the empty store by the create, promote
and complete operations of the command surface, with arbitrary injected
clock values. -/
inductive Reachable : Tasks → Prop where
  | base : Reachable ⟨[]⟩
  | createStep (ts : Tasks) (text : String) (now : DateTimeFO) :
      Reachable ts → Reachable (ts.create (Task.fromString text now))
  | workOnStep (ts : Tasks) (p : Nat) :
      Reachable ts → Reachable (ts.work_on p).1
  | completeStep (ts : Tasks) (p : Nat) (now : DateTimeFO) :
      Reachable ts → Reachable (ts.complete p now).1

end Td

namespace Td

/-- A concrete three-task store, all tasks active, used to exercise the
done command's batch completion loop. -/
def ts3 : Tasks := ⟨[⟨"A", ⟨0, 0⟩, none⟩, ⟨"B", ⟨1, 0⟩, none⟩, ⟨"C", ⟨2, 0⟩, none⟩]⟩

/-- The selector the expression "1-3" resolves to. -/
def sel13 : TaskSelector :=
  selector_from_string (fun _ _ => false) "1-3" EmptyBehaviour.SelectLast

/-- A clock whose successive readings are the distinct instants 10, 11,
12, ... -/
def clk : Nat → DateTimeFO := fun i => ⟨10 + (i : Int), 0⟩

/-- C1: running the done command on the three-task store ts3 with
expression "1-3" resolves the snapshot [0, 1, 2] before any mutation,
yet after applying the completions in ascending order the selected task
"B" (position 1 of the snapshot) is still active, and "C" carries the
third clock reading: the loop's positional removals shift the store
under the remaining snapshot entries, so not every selected task ends
completed, contradicting the claim. -/
theorem done_batch_leaves_selected_task_active :
  ts3.select sel13 DoneHandling.Hide = [0, 1, 2]
  ∧ (ts3.tasks.getD 1 default).text = "B"
  ∧ (doneCmd ts3 sel13 clk).1.tasks.map (fun t => (t.text, t.completed)) =
      [("B", none), ("A", some ⟨10, 0⟩), ("C", some ⟨12, 0⟩)] := by
  decide

/-- C9: in the same done-command run, after the first two completions
the task "C" has its completion timestamp set to instant 11, and the
third completion overwrites it to instant 12: an already-set completion
timestamp is overwritten by a sequence reachable from the command
surface, contradicting the set-exactly-once claim. -/
theorem done_batch_overwrites_completion :
  ((ts3.complete 0 (clk 0)).1.complete 1 (clk 1)).1.tasks.map
      (fun t => (t.text, t.completed)) =
    [("B", none), ("A", some ⟨10, 0⟩), ("C", some ⟨11, 0⟩)]
  ∧ (((ts3.complete 0 (clk 0)).1.complete 1 (clk 1)).1.complete 2 (clk 2)).1.tasks.map
      (fun t => (t.text, t.completed)) =
    [("B", none), ("A", some ⟨10, 0⟩), ("C", some ⟨12, 0⟩)]
  ∧ (((ts3.complete 0 (clk 0)).1.complete 1 (clk 1)).1.complete 2 (clk 2)).1 =
      (doneCmd ts3 sel13 clk).1
  ∧ (⟨11, 0⟩ : DateTimeFO) ≠ ⟨12, 0⟩ := by
  decide

/-- C3: parsing the expression "0" takes the numeric branch and computes
the 1-based-to-0-based translation with wrapping usize subtraction, so
the resulting selector holds the huge wrapped index 2^64 - 1 instead of
a safely-never-matching representation. -/
theorem selector_zero_wraps :
  selector_from_string (fun _ _ => false) "0" EmptyBehaviour.SelectLast =
      TaskSelector.index 18446744073709551615
  ∧ 18446744073709551615 = 2 ^ 64 - 1 :=
  ⟨rfl, by norm_num⟩

/-- C4 counterexample: creating from the argument text
"Buy milk,Write report" on an empty store does not put "Buy milk" at
position 0 and "Write report" at position 1 — each comma-split segment
is inserted at position 0, so the last segment ends up first. -/
theorem create_order_counterexample :
  ¬ (((createCmd ⟨[]⟩ "Buy milk,Write report" ⟨0, 0⟩).tasks.get? 0).map Task.text =
        some "Buy milk"
     ∧ ((createCmd ⟨[]⟩ "Buy milk,Write report" ⟨0, 0⟩).tasks.get? 1).map Task.text =
        some "Write report") := by
  decide

/-- C4 amended: creating from the argument text "Buy milk,Write report"
on an empty store yields two active tasks with "Write report" at
position 0 and "Buy milk" at position 1. -/
theorem create_order_amended :
  (createCmd ⟨[]⟩ "Buy milk,Write report" ⟨0, 0⟩).tasks.map
      (fun t => (t.text, t.completed)) =
    [("Write report", none), ("Buy milk", none)] := by
  decide

/-- A concrete one-task store whose single task is already completed. -/
def tsCompletedOne : Tasks := ⟨[⟨"A", ⟨0, 0⟩, some ⟨1, 0⟩⟩]⟩

/-- C6 counterexample: position 0 is valid in tsCompletedOne, but the
task there is already completed, so complete(0) leaves the active count
unchanged (0 before and after) and the completed count unchanged (1
before and after), refuting the claim's unrestricted quantification over
every store and valid position. -/
theorem complete_on_completed_counterexample :
  0 < tsCompletedOne.tasks.length
  ∧ ¬ ((tsCompletedOne.complete 0 ⟨2, 0⟩).1.activeCount + 1 =
          tsCompletedOne.activeCount
       ∧ (tsCompletedOne.complete 0 ⟨2, 0⟩).1.completedCount =
          tsCompletedOne.completedCount + 1) := by
  decide

end Td

namespace Td

/-- The condition under which `Tasks.select` includes a position, as a
predicate on the position alone. -/
def selPred (ts : Tasks) (sel : TaskSelector) (done : DoneHandling) (i : Nat) :
    Bool :=
  (match done with
   | DoneHandling.Show => true
   | DoneHandling.Hide => (ts.tasks.getD i default).completed.isNone)
  && sel.matches ts i

lemma select_foldl_aux (ts : Tasks) (sel : TaskSelector) (done : DoneHandling)
    (l : List Task) :
    ∀ (k : Nat) (acc : List Nat),
      (∀ i (h : i < l.length), l.get ⟨i, h⟩ = ts.tasks.getD (k + i) default) →
      (List.enumFrom k l).foldl (selectStep ts sel done) acc
        = acc ++ (List.range' k l.length).filter (selPred ts sel done) := by
  induction l with
  | nil => intro k acc _; simp
  | cons t l ih =>
      intro k acc hget
      have ht : t = ts.tasks.getD k default := by
        have h0 := hget 0 (by simp)
        simpa using h0
      have hshift : ∀ i (h : i < l.length),
          l.get ⟨i, h⟩ = ts.tasks.getD (k + 1 + i) default := by
        intro i h
        have h2 : i + 1 < (t :: l).length := by
          simpa using Nat.succ_lt_succ h
        have := hget (i + 1) h2
        simpa [Nat.add_comm, Nat.add_left_comm, Nat.add_assoc] using this
      have hcons : List.enumFrom k (t :: l) = (k, t) :: List.enumFrom (k + 1) l := rfl
      have hrange : List.range' k (t :: l).length =
          k :: List.range' (k + 1) l.length := rfl
      have hstep : selectStep ts sel done acc (k, t) =
          if selPred ts sel done k then acc ++ [k] else acc := by
        cases done with
        | Show =>
            by_cases hm : sel.matches ts k = true <;>
              simp [selectStep, selPred, hm]
        | Hide =>
            have hsel : selPred ts sel DoneHandling.Hide k =
                (t.completed.isNone && sel.matches ts k) := by
              simp only [selPred, ← ht]
            by_cases hc : t.completed.isNone = true <;>
              by_cases hm : sel.matches ts k = true <;>
                simp [selectStep, hsel, hc, hm]
      rw [hcons, List.foldl_cons, hstep, hrange, List.filter_cons]
      by_cases hp : selPred ts sel done k = true
      · rw [if_pos hp, if_pos hp, ih (k + 1) (acc ++ [k]) hshift]
        simp
      · rw [if_neg hp, if_neg hp, ih (k + 1) acc hshift]

lemma select_eq_filter (ts : Tasks) (sel : TaskSelector) (done : DoneHandling) :
    ts.select sel done =
      (List.range ts.tasks.length).filter (selPred ts sel done) := by
  have hget : ∀ i (h : i < ts.tasks.length),
      ts.tasks.get ⟨i, h⟩ = ts.tasks.getD (0 + i) default := by
    intro i h
    rw [Nat.zero_add]
    simp [List.getElem?_eq_getElem h]
  have henum : ts.tasks.enum = List.enumFrom 0 ts.tasks := rfl
  unfold Tasks.select
  rw [henum, select_foldl_aux ts sel done ts.tasks 0 [] hget,
      List.range_eq_range']
  simp

lemma mem_select_iff (ts : Tasks) (sel : TaskSelector) (done : DoneHandling)
    (p : Nat) :
    p ∈ ts.select sel done ↔
      p < ts.tasks.length ∧ selPred ts sel done p = true := by
  rw [select_eq_filter]
  simp [List.mem_filter, List.mem_range]

/-- C5: for every store, selector and done-handling policy, select
returns exactly the positions p below the store length for which the
policy keeps the position (Show, or the task at p not completed) and the
selector matches p, and the returned positions are strictly ascending.
Selection is a total function, so it never fails on any selector shape,
out-of-range index or range values, or the empty store. -/
theorem select_spec (ts : Tasks) (sel : TaskSelector) (done : DoneHandling) :
    (∀ p, p ∈ ts.select sel done ↔
        p < ts.tasks.length
        ∧ (done = DoneHandling.Show ∨ (ts.tasks.getD p default).completed = none)
        ∧ sel.matches ts p = true)
    ∧ List.Pairwise (· < ·) (ts.select sel done) := by
  constructor
  · intro p
    rw [mem_select_iff]
    cases done with
    | Show => simp [selPred]
    | Hide => simp [selPred, Option.isNone_iff_eq_none]
  · rw [select_eq_filter]
    exact (List.pairwise_lt_range _).filter _

lemma complete_ok (ts : Tasks) (p : Nat) (now : DateTimeFO)
    (h : p < ts.tasks.length) :
    (ts.complete p now).2 = none
    ∧ (ts.complete p now).1.tasks.length = ts.tasks.length := by
  have hg : ts.tasks.get? p = some (ts.tasks.get ⟨p, h⟩) := List.get?_eq_get h
  unfold Tasks.complete
  rw [hg]
  refine ⟨rfl, ?_⟩
  simp only [List.length_append, List.length_cons, List.length_nil]
  have := List.length_eraseIdx_add_one h
  omega

lemma doneFold_ok (clock : Nat → DateTimeFO) (ps : List Nat) :
    ∀ (st : Tasks) (b : Bool) (k : Nat),
      (∀ p ∈ ps, p < st.tasks.length) →
      (ps.foldl (doneStep clock) (st, b, k)).1.tasks.length = st.tasks.length
      ∧ (ps.foldl (doneStep clock) (st, b, k)).2.1 = b := by
  induction ps with
  | nil => intro st b k _; exact ⟨rfl, rfl⟩
  | cons p ps ih =>
      intro st b k hmem
      have hp : p < st.tasks.length := hmem p (List.mem_cons_self _ _)
      have hok := complete_ok st p (clock k) hp
      have hstep : doneStep clock (st, b, k) p =
          ((st.complete p (clock k)).1, b, k + 1) := by
        simp [doneStep, hok.1]
      rw [List.foldl_cons, hstep]
      have hrest : ∀ q ∈ ps, q < (st.complete p (clock k)).1.tasks.length := by
        intro q hq
        rw [hok.2]
        exact hmem q (List.mem_cons_of_mem _ hq)
      have hind := ih (st.complete p (clock k)).1 b (k + 1) hrest
      exact ⟨by rw [hind.1, hok.2], hind.2⟩

/-- C10: the done command's per-position unwrap never hits an error:
every position in the snapshot is below the store length, and each
completion preserves the store length (one removal, one append), so
every later snapshot position is still valid when its turn comes and
complete always returns Ok. -/
theorem done_unwrap_never_panics (ts : Tasks) (sel : TaskSelector)
    (clock : Nat → DateTimeFO) : (doneCmd ts sel clock).2 = false := by
  have hmem : ∀ p ∈ ts.select sel DoneHandling.Hide, p < ts.tasks.length := by
    intro p hp
    exact ((mem_select_iff ts sel DoneHandling.Hide p).mp hp).1
  have h := doneFold_ok clock (ts.select sel DoneHandling.Hide) ts false 0 hmem
  simpa [doneCmd] using h.2

end Td

namespace Td

lemma countP_eraseIdx (f : Task → Bool) (l : List Task) :
    ∀ (p : Nat) (h : p < l.length),
      l.countP f = (l.eraseIdx p).countP f
        + (if f (l.get ⟨p, h⟩) then 1 else 0) := by
  induction l with
  | nil => intro p h; simp at h
  | cons x xs ih =>
      intro p h
      cases p with
      | zero => simp [List.countP_cons, Nat.add_comm]
      | succ p =>
          have hp : p < xs.length := Nat.lt_of_succ_lt_succ h
          have hx := ih p hp
          simp only [List.countP_cons, List.eraseIdx_cons_succ, List.get_cons_succ]
          omega

/-- C7: promote (work_on) fails with NotFound exactly when the position
is at or beyond the store length, leaving the store unchanged on error;
on a valid position it removes the task at that position and re-inserts
it at position 0, so the same task sits at position 0 and the store
length is unchanged. -/
theorem workOn_spec (ts : Tasks) (p : Nat) :
    ((ts.work_on p).2 = some TaskError.NotFound ↔ ts.tasks.length ≤ p)
    ∧ (ts.tasks.length ≤ p → (ts.work_on p).1 = ts)
    ∧ ∀ h : p < ts.tasks.length,
        (ts.work_on p).2 = none
        ∧ (ts.work_on p).1.tasks = ts.tasks.get ⟨p, h⟩ :: ts.tasks.eraseIdx p
        ∧ (ts.work_on p).1.tasks.length = ts.tasks.length
        ∧ (ts.work_on p).1.tasks.get? 0 = some (ts.tasks.get ⟨p, h⟩) := by
  cases hq : ts.tasks.get? p with
  | none =>
      have hle : ts.tasks.length ≤ p := List.get?_eq_none.mp hq
      unfold Tasks.work_on
      rw [hq]
      refine ⟨by simpa using hle, fun _ => rfl, fun h => absurd h (by omega)⟩
  | some w =>
      have hlt : p < ts.tasks.length := by
        rcases List.get?_eq_some.mp hq with ⟨h, _⟩
        exact h
      have hw : w = ts.tasks.get ⟨p, hlt⟩ := by
        have := List.get?_eq_get hlt
        rw [hq] at this
        exact Option.some_injective _ this
      unfold Tasks.work_on
      rw [hq]
      refine ⟨by simp; omega, fun hle => absurd hlt (by omega), fun h => ?_⟩
      refine ⟨rfl, by rw [hw], ?_, by rw [hw]; rfl⟩
      simp only [List.length_cons]
      exact List.length_eraseIdx_add_one hlt

/-- Concrete two-task store used to witness the promote contract. -/
def tsTwo : Tasks := ⟨[⟨"A", ⟨0, 0⟩, none⟩, ⟨"B", ⟨1, 0⟩, none⟩]⟩

/-- Witness for workOn_spec at the concrete store tsTwo and position 1:
the promoted task "B" ends at position 0 and the length is unchanged. -/
theorem workOn_spec_witness :
    (tsTwo.work_on 1).2 = none
    ∧ (tsTwo.work_on 1).1.tasks.get? 0 = some ⟨"B", ⟨1, 0⟩, none⟩
    ∧ (tsTwo.work_on 1).1.tasks.length = tsTwo.tasks.length := by
  have h := (workOn_spec tsTwo 1).2.2 (by decide)
  have hB : tsTwo.tasks.get ⟨1, by decide⟩ = ⟨"B", ⟨1, 0⟩, none⟩ := rfl
  exact ⟨h.1, by rw [h.2.2.2, hB], h.2.2.1⟩

/-- C6 (amended): completing a valid position whose task is still
active, at an instant not earlier than the task's creation instant,
succeeds, leaves one fewer active task and one more completed task,
puts the completed task last in store order, and that task's completion
timestamp is at or after its creation timestamp. -/
theorem complete_spec (ts : Tasks) (p : Nat) (now : DateTimeFO)
    (hp : p < ts.tasks.length)
    (hactive : (ts.tasks.get ⟨p, hp⟩).completed = none)
    (hclock : (ts.tasks.get ⟨p, hp⟩).created.le now) :
    (ts.complete p now).2 = none
    ∧ (ts.complete p now).1.activeCount + 1 = ts.activeCount
    ∧ (ts.complete p now).1.completedCount = ts.completedCount + 1
    ∧ (ts.complete p now).1.tasks.getLast? =
        some { ts.tasks.get ⟨p, hp⟩ with completed := some now }
    ∧ ({ ts.tasks.get ⟨p, hp⟩ with completed := some now }).created.le now := by
  have hg : ts.tasks.get? p = some (ts.tasks.get ⟨p, hp⟩) := List.get?_eq_get hp
  have hElem : ts.tasks[p].completed = none := by
    simpa using hactive
  have hcountA := countP_eraseIdx (fun t => t.completed.isNone) ts.tasks p hp
  have hcountC := countP_eraseIdx (fun t => t.completed.isSome) ts.tasks p hp
  unfold Tasks.complete
  rw [hg]
  refine ⟨rfl, ?_, ?_, by simp, hclock⟩
  · simp only [Tasks.activeCount, List.countP_append, List.countP_cons,
      List.countP_nil, hactive, Option.isNone_none, Option.isNone_some]
    rw [hcountA]
    simp [hElem]
  · simp only [Tasks.completedCount, List.countP_append, List.countP_cons,
      List.countP_nil, Option.isSome_some]
    rw [hcountC]
    simp [hElem]

/-- Concrete one-task store with an active task, used to witness the
complete contract. -/
def tsOneActive : Tasks := ⟨[⟨"A", ⟨0, 0⟩, none⟩]⟩

/-- Witness for complete_spec at the concrete store tsOneActive,
position 0 and completion instant 5. -/
theorem complete_spec_witness :
    (tsOneActive.complete 0 ⟨5, 0⟩).2 = none
    ∧ (tsOneActive.complete 0 ⟨5, 0⟩).1.activeCount + 1 = tsOneActive.activeCount
    ∧ (tsOneActive.complete 0 ⟨5, 0⟩).1.completedCount =
        tsOneActive.completedCount + 1
    ∧ (tsOneActive.complete 0 ⟨5, 0⟩).1.tasks.getLast? =
        some ⟨"A", ⟨0, 0⟩, some ⟨5, 0⟩⟩ := by
  have h := complete_spec tsOneActive 0 ⟨5, 0⟩ (by decide) rfl (by decide)
  exact ⟨h.1, h.2.1, h.2.2.1, by simpa using h.2.2.2.1⟩

end Td

namespace Td

lemma loadRows_nil (parse : String → Option DateTimeFO) (tasks : List Task) :
    loadRows parse tasks [] = Except.ok tasks := rfl

lemma loadRows_cons_skip (parse : String → Option DateTimeFO) (tasks : List Task)
    (rest : List (Option (List String))) :
    loadRows parse tasks (none :: rest) = loadRows parse tasks rest := by
  simp only [loadRows]

lemma loadRows_cons_missing (parse : String → Option DateTimeFO)
    (tasks : List Task) (record : List String)
    (rest : List (Option (List String))) (hlen : record.length < 3) :
    loadRows parse tasks (some record :: rest) =
      Except.error TaskFileError.MissingColumn := by
  simp only [loadRows]
  rw [if_pos hlen]

lemma loadRows_cons_badcreated (parse : String → Option DateTimeFO)
    (tasks : List Task) (record : List String)
    (rest : List (Option (List String))) (hlen : ¬ record.length < 3)
    (hcr : parse (record.getD 1 "") = none) :
    loadRows parse tasks (some record :: rest) =
      Except.error TaskFileError.ParseColmn := by
  simp only [loadRows]
  rw [if_neg hlen, hcr]

lemma loadRows_cons_ok (parse : String → Option DateTimeFO) (tasks : List Task)
    (record : List String) (rest : List (Option (List String)))
    (hlen : ¬ record.length < 3) (created : DateTimeFO)
    (hcr : parse (record.getD 1 "") = some created) :
    loadRows parse tasks (some record :: rest) =
      loadRows parse
        (tasks ++ [{ text := record.getD 0 "", created := created,
                     completed := parse (record.getD 2 "") }]) rest := by
  simp only [loadRows]
  rw [if_neg hlen, hcr]

lemma loadRows_save_aux (fmt : DateTimeFO → String)
    (parse : String → Option DateTimeFO) (hem : parse "" = none)
    (l : List Task) :
    ∀ acc : List Task,
      (∀ t ∈ l, parse (fmt t.created) = some t.created) →
      (∀ t ∈ l, ∀ c, t.completed = some c → parse (fmt c) = some c) →
      loadRows parse acc ((l.map (taskRecord fmt)).map some) =
        Except.ok (acc ++ l) := by
  induction l with
  | nil => intro acc _ _; simp [loadRows_nil]
  | cons t l ih =>
      intro acc hcr hco
      obtain ⟨tx, tc, tcomp⟩ := t
      have hcrt : parse (fmt tc) = some tc := hcr ⟨tx, tc, tcomp⟩ (by simp)
      have hih := ih (acc ++ [(⟨tx, tc, tcomp⟩ : Task)])
          (fun u hu => hcr u (List.mem_cons_of_mem _ hu))
          (fun u hu => hco u (List.mem_cons_of_mem _ hu))
      have hstep := loadRows_cons_ok parse acc (taskRecord fmt ⟨tx, tc, tcomp⟩)
          ((l.map (taskRecord fmt)).map some) (by simp [taskRecord]) tc
          (by simpa [taskRecord] using hcrt)
      simp only [List.map_cons]
      rw [hstep]
      cases tcomp with
      | none =>
          have htask : (⟨(taskRecord fmt ⟨tx, tc, none⟩).getD 0 "", tc,
                parse ((taskRecord fmt ⟨tx, tc, none⟩).getD 2 "")⟩ : Task) =
              ⟨tx, tc, none⟩ := by
            simp [taskRecord, hem]
          rw [htask, hih]
          simp
      | some c =>
          have hcoc : parse (fmt c) = some c :=
            hco ⟨tx, tc, some c⟩ (by simp) c rfl
          have htask : (⟨(taskRecord fmt ⟨tx, tc, some c⟩).getD 0 "", tc,
                parse ((taskRecord fmt ⟨tx, tc, some c⟩).getD 2 "")⟩ : Task) =
              ⟨tx, tc, some c⟩ := by
            simp [taskRecord, hcoc]
          rw [htask, hih]
          simp

/-- C2: for every store reachable by create, promote and complete
operations, saving and then loading reproduces the same ordered task
list — same texts, same creation timestamps (same instant and offset),
and same optional completion timestamps — given that the timestamp codec
round-trips every timestamp stored in it (the documented behaviour of
chrono's %+ format) and that the empty string does not parse as a
timestamp.  An absent completion is written as the empty string and read
back as absent. -/
theorem save_load_roundtrip (fmt : DateTimeFO → String)
    (parse : String → Option DateTimeFO) (ts : Tasks)
    (hreach : Reachable ts)
    (hcr : ∀ t ∈ ts.tasks, parse (fmt t.created) = some t.created)
    (hco : ∀ t ∈ ts.tasks, ∀ c, t.completed = some c → parse (fmt c) = some c)
    (hem : parse "" = none) :
    loadRows parse [] ((csvRecords (ts.save fmt)).map some) = Except.ok ts.tasks
    ∧ ∀ t ∈ ts.tasks, t.completed = none →
        taskRecord fmt t = [t.text, fmt t.created, ""] := by
  constructor
  · have hcsv : csvRecords (ts.save fmt) = ts.tasks.map (taskRecord fmt) := rfl
    rw [hcsv]
    simpa using loadRows_save_aux fmt parse hem ts.tasks [] hcr hco
  · intro t ht hc
    simp [taskRecord, hc]

/-- A concrete timestamp formatter standing in for chrono %+ formatting
in witnesses: injective on the three instants used by tsW. -/
def fmtW : DateTimeFO → String :=
  fun d => if d = ⟨0, 0⟩ then "t0" else if d = ⟨1, 0⟩ then "t1" else "t2"

/-- A concrete timestamp parser inverting fmtW on the timestamps used by
tsW; every other string, in particular the empty string, fails. -/
def parseW : String → Option DateTimeFO :=
  fun s =>
    if s = "t0" then some ⟨0, 0⟩
    else if s = "t1" then some ⟨1, 0⟩
    else if s = "t2" then some ⟨2, 0⟩
    else none

/-- A store reached by two creates and one complete: task "a" active,
task "b" completed at instant 2. -/
def tsW : Tasks :=
  ((((⟨[]⟩ : Tasks).create (Task.fromString "b" ⟨1, 0⟩)).create
      (Task.fromString "a" ⟨0, 0⟩)).complete 1 ⟨2, 0⟩).1

/-- Witness for save_load_roundtrip at the concrete reachable store tsW
with the concrete codec fmtW/parseW. -/
theorem save_load_roundtrip_witness :
    loadRows parseW [] ((csvRecords (tsW.save fmtW)).map some) =
      Except.ok tsW.tasks := by
  have hre : Reachable tsW :=
    Reachable.completeStep _ 1 ⟨2, 0⟩
      (Reachable.createStep _ "a" ⟨0, 0⟩
        (Reachable.createStep _ "b" ⟨1, 0⟩ Reachable.base))
  have hco : ∀ t ∈ tsW.tasks, ∀ c, t.completed = some c →
      parseW (fmtW c) = some c := by
    intro t ht c hc
    have hts : tsW.tasks = [⟨"a", ⟨0, 0⟩, none⟩, ⟨"b", ⟨1, 0⟩, some ⟨2, 0⟩⟩] := rfl
    rw [hts] at ht
    rcases List.mem_cons.mp ht with rfl | ht2
    · exact absurd hc (by simp)
    rcases List.mem_cons.mp ht2 with rfl | ht3
    · have hc2 : (⟨2, 0⟩ : DateTimeFO) = c := by simpa using hc
      rw [← hc2]
      decide
    · simp at ht3
  exact (save_load_roundtrip fmtW parseW tsW hre (by decide) hco (by decide)).1

/-- C8: the four per-row behaviours of load: a well-formed row whose
completion column fails to parse yields a task with an absent completion
and no error; a row with fewer than 3 columns fails the whole load with
MissingColumn; a row whose creation column fails to parse fails the
whole load with ParseColmn; a row that failed to parse as a row at all
is skipped silently. -/
theorem load_row_errors (parse : String → Option DateTimeFO) :
    (∀ acc text cs comp rest created,
        parse cs = some created → parse comp = none →
        loadRows parse acc (some [text, cs, comp] :: rest) =
          loadRows parse (acc ++ [⟨text, created, none⟩]) rest)
    ∧ (∀ acc record rest, record.length < 3 →
        loadRows parse acc (some record :: rest) =
          Except.error TaskFileError.MissingColumn)
    ∧ (∀ acc text cs comp rest, parse cs = none →
        loadRows parse acc (some [text, cs, comp] :: rest) =
          Except.error TaskFileError.ParseColmn)
    ∧ (∀ acc rest, loadRows parse acc (none :: rest) = loadRows parse acc rest) := by
  refine ⟨?_, ?_, ?_, ?_⟩
  · intro acc text cs comp rest created h1 h2
    have h := loadRows_cons_ok parse acc [text, cs, comp] rest (by simp)
      created (by simpa using h1)
    simpa [h2] using h
  · intro acc record rest h
    exact loadRows_cons_missing parse acc record rest h
  · intro acc text cs comp rest h
    exact loadRows_cons_badcreated parse acc [text, cs, comp] rest (by simp)
      (by simpa using h)
  · intro acc rest
    exact loadRows_cons_skip parse acc rest

/-- Witness for load_row_errors: a concrete row whose creation column
parses and whose completion column does not yields a task with an absent
completion and the load succeeds. -/
theorem load_row_errors_witness :
    loadRows parseW [] [some ["x", "t0", "zz"]] =
      Except.ok [⟨"x", ⟨0, 0⟩, none⟩] := by
  have h := (load_row_errors parseW).1 [] "x" "t0" "zz" [] ⟨0, 0⟩
    (by decide) (by decide)
  rw [h]
  rfl

end Td
